import Mathlib

/-!
KnowledgeScout: document ingestion and chunk retrieval.

A shallow embedding of `backend/server.js` (the `/upload` and `/query` routes with the
multer file filter) and of the retry logic of `frontend/src/App.jsx`
(`handleUpload`, `handleQuery`), followed by the properties proved about them.

Conventions of the embedding:

* a JavaScript string is a list of characters (`Str`);
* the PostgreSQL database behind `pool` is an explicit `Store` value that the handlers
  pass along; a statement sent with `pool.query` either succeeds or throws, which is
  decided by an oracle (`Env.fault` for the statements of one upload request, an
  `Option Str` for the single statement of a query request);
* the case folding that `ILIKE` applies is the one of the database collation, a parameter
  (`Collation`) of the query route;
* the third-party extractors `pdfParse` and `mammoth.extractRawText` are parameters
  (`Env.pdfParse`, `Env.extractRawText`) that return the text or throw a message;
* what the browser does for the client (requests, alerts, timers) is recorded as a list
  of `Event`s, and the outcome of the `n`-th request is given by a function of `n`.
-/

namespace KnowledgeScout

/-- A JavaScript string. -/
abbrev Str := List Char

/-! ## String primitives used by the source -/

/-- The method `String.prototype.split` with a one-character separator: the segments
between the occurrences of `sep`; the empty string gives one empty segment. -/
def split (sep : Char) : Str → List Str
  | [] => [[]]
  | c :: cs =>
    if c = sep then [] :: split sep cs
    else
      match split sep cs with
      | [] => [[c]]
      | l :: ls => (c :: l) :: ls

/-- The characters removed by `String.prototype.trim`: ECMAScript WhiteSpace
(TAB, VT, FF, ZWNBSP and the space separators) and LineTerminator (LF, CR, LS, PS). -/
def isWhiteSpace (c : Char) : Bool :=
  c.toNat ∈ [0x09, 0x0A, 0x0B, 0x0C, 0x0D, 0x20, 0xA0, 0x1680, 0x2028, 0x2029, 0x202F,
    0x205F, 0x3000, 0xFEFF] || (0x2000 ≤ c.toNat && c.toNat ≤ 0x200A)

/-- The method `String.prototype.trim`: white space removed from both ends. -/
def trim (s : Str) : Str :=
  ((s.dropWhile isWhiteSpace).reverse.dropWhile isWhiteSpace).reverse

/-- Truthiness of a JavaScript string: every string but the empty one. -/
def truthy (s : Str) : Bool := !s.isEmpty

/-- The method `String.prototype.toLowerCase`, on the ASCII letters; the characters that
lower-case to one of the letters of `.pdf` and `.docx` are ASCII capitals only. -/
def toLowerCase (s : Str) : Str := s.map Char.toLower

/-- The scan state of `path.extname`. -/
structure ExtnameState where
  startDot : Int
  startPart : Int
  endPos : Int
  matchedSlash : Bool
  preDotState : Int
deriving DecidableEq, Repr

/-- The loop of `path.posix.extname`, from index `i - 1` down to `0`; it stops at the
first path separator that is not trailing. -/
def extnameLoop (path : Str) : Nat → ExtnameState → ExtnameState
  | 0, st => st
  | i + 1, st =>
    let code := path.getD i ' '
    if code = '/' then
      if !st.matchedSlash then { st with startPart := (i : Int) + 1 }
      else extnameLoop path i st
    else
      let st1 : ExtnameState :=
        if st.endPos = -1 then { st with matchedSlash := false, endPos := (i : Int) + 1 }
        else st
      let st2 : ExtnameState :=
        if code = '.' then
          if st1.startDot = -1 then { st1 with startDot := (i : Int) }
          else if st1.preDotState ≠ 1 then { st1 with preDotState := 1 }
          else st1
        else if st1.startDot ≠ -1 then { st1 with preDotState := -1 }
        else st1
      extnameLoop path i st2

/-- The function `path.extname` of Node.js (POSIX): the extension of the last path
component, from its last dot on, or the empty string. -/
def extname (path : Str) : Str :=
  let st := extnameLoop path path.length
    { startDot := -1, startPart := 0, endPos := -1, matchedSlash := true, preDotState := 0 }
  if st.startDot = -1 ∨ st.endPos = -1 ∨ st.preDotState = 0 ∨
      (st.preDotState = 1 ∧ st.startDot = st.endPos - 1 ∧ st.startDot = st.startPart + 1) then
    []
  else
    (path.drop st.startDot.toNat).take (st.endPos.toNat - st.startDot.toNat)

/-! ## The store -/

/-- A row of table `documents`. -/
structure DocumentRow where
  id : Nat
  name : Str
deriving DecidableEq, Repr

/-- A row of table `chunks`. -/
structure ChunkRow where
  id : Nat
  doc_id : Nat
  chunk_text : Str
deriving DecidableEq, Repr

/-- The database: the rows of both tables in insertion order and the two id sequences. -/
structure Store where
  documents : List DocumentRow
  chunks : List ChunkRow
  docSeq : Nat
  chunkSeq : Nat
deriving DecidableEq, Repr

/-- The store with no rows. -/
def Store.empty : Store := { documents := [], chunks := [], docSeq := 1, chunkSeq := 1 }

/-- The statement `INSERT INTO documents (name) VALUES ($1) RETURNING id`, when it
succeeds: the new store and the returned id. -/
def insertDocument (name : Str) (s : Store) : Store × Nat :=
  ({ s with documents := s.documents ++ [{ id := s.docSeq, name := name }],
            docSeq := s.docSeq + 1 }, s.docSeq)

/-- The statement `INSERT INTO chunks (doc_id, chunk_text) VALUES ($1, $2)`, when it
succeeds. -/
def insertChunk (docId : Nat) (chunk : Str) (s : Store) : Store :=
  { s with chunks := s.chunks ++ [{ id := s.chunkSeq, doc_id := docId, chunk_text := chunk }],
           chunkSeq := s.chunkSeq + 1 }

/-! ## PostgreSQL pattern matching -/

/-- Whether `f` holds of some suffix of the text, the text itself first. -/
def anySuffix (f : Str → Bool) : Str → Bool
  | [] => f []
  | c :: t => f (c :: t) || anySuffix f t

/-- The operator `LIKE` with the default escape character: `%` matches any sequence of
characters, `_` any single character, a backslash makes the next pattern character
literal. A pattern ending in a lone backslash is an error in PostgreSQL and matches
nothing here; see `likeWellFormed`. -/
def likeMatch : Str → Str → Bool
  | [] => fun t => t.isEmpty
  | c :: p => fun t =>
    if c = '%' then anySuffix (likeMatch p) t
    else if c = '_' then
      match t with
      | [] => false
      | _ :: t1 => likeMatch p t1
    else if c = '\\' then
      match p with
      | [] => false
      | e :: p1 =>
        match t with
        | [] => false
        | x :: t1 => decide (x = e) && likeMatch p1 t1
    else
      match t with
      | [] => false
      | x :: t1 => decide (x = c) && likeMatch p t1

/-- A pattern that does not end in a lone escape character. -/
def likeWellFormed : Str → Bool
  | [] => true
  | c :: p =>
    if c = '\\' then
      match p with
      | [] => false
      | _ :: p1 => likeWellFormed p1
    else likeWellFormed p

/-- The case folding of the database: the function `lower` of PostgreSQL under the
collation of the column, applied to a whole string. It is a parameter of the model; the
two laws are what every collation does with the empty string and with the percent signs
that the query route puts around the question: they stay in place and the question
between them is lower-cased as it is alone. -/
structure Collation where
  lower : Str → Str
  lower_nil : lower [] = []
  lower_wild : ∀ q : Str, lower ('%' :: q ++ ['%']) = '%' :: lower q ++ ['%']

/-- The collation that lower-cases character by character with `fold`, which must leave
the percent sign alone. -/
def Collation.ofFold (fold : Char → Char) (h : fold '%' = '%') : Collation :=
  { lower := fun s => s.map fold,
    lower_nil := rfl,
    lower_wild := fun q => by simp [h] }

/-- The collation `C`: only the ASCII letters are lower-cased. -/
def collationC : Collation := Collation.ofFold Char.toLower (by decide)

/-- A collation that also lower-cases the Kelvin sign (U+212A) to the letter k, as the
Unicode-aware collations do. -/
def collationKelvin : Collation :=
  Collation.ofFold (fun c => if c = Char.ofNat 0x212A then 'k' else c.toLower) (by decide)

/-- The operator `ILIKE`: both sides are lower-cased with the collation, then matched
with `LIKE`. -/
def ilike (coll : Collation) (text pattern : Str) : Bool :=
  likeMatch (coll.lower pattern) (coll.lower text)

/-- The statement `SELECT chunk_text FROM chunks WHERE chunk_text ILIKE $1 LIMIT 5`, when
it succeeds: the first five matching rows in store order. -/
def selectChunks (coll : Collation) (pattern : Str) (s : Store) : List ChunkRow :=
  (s.chunks.filter (fun row => ilike coll row.chunk_text pattern)).take 5

/-! ## The HTTP layer -/

/-- The body of a response. -/
inductive Body where
  | message (m : Str)
  | error (m : Str)
  | answers (a : List Str)
  | errorPage (m : Str)
deriving DecidableEq, Repr

/-- A response: status code and body. -/
structure Response where
  status : Nat
  body : Body
deriving DecidableEq, Repr

/-- The file part of a multipart request as multer presents it. -/
structure UploadedFile where
  originalname : Str
  mimetype : Str
  buffer : List Nat
deriving DecidableEq, Repr

/-- What the upload handler depends on besides the store: the two extractors and, for
each statement of the request (0 for the document insert, `k` for the insert of the
`k`-th chunk), whether it throws and with which message. -/
structure Env where
  pdfParse : List Nat → Except Str Str
  extractRawText : List Nat → Except Str Str
  fault : Nat → Option Str

/-- The error message of the file filter. -/
def onlyPdfDocx : Str := "Only .pdf and .docx allowed".toList

/-- The MIME type of a PDF file. -/
def mimePdf : Str := "application/pdf".toList

/-- The MIME type of a DOCX file. -/
def mimeDocx : Str :=
  "application/vnd.openxmlformats-officedocument.wordprocessingml.document".toList

/-- The option `fileFilter` given to multer: an error unless the lower-cased extension of
the original name is `.pdf` or `.docx`. -/
def fileFilter (file : UploadedFile) : Except Str Bool :=
  let ext := toLowerCase (extname file.originalname)
  if ext ≠ ".pdf".toList ∧ ext ≠ ".docx".toList then .error onlyPdfDocx
  else .ok true

/-- The text extraction at the head of the upload handler: by MIME type, the empty string
for any other type. -/
def extractText (env : Env) (file : UploadedFile) : Except Str Str :=
  if file.mimetype = mimePdf then env.pdfParse file.buffer
  else if file.mimetype = mimeDocx then env.extractRawText file.buffer
  else .ok []

/-- The chunks of a text: `text.split('\n').filter(chunk => chunk.trim())`. -/
def chunksOf (text : Str) : List Str :=
  (split '\n' text).filter (fun chunk => truthy (trim chunk))

/-- The loop `for (const chunk of chunks) await pool.query(...)`: the `i`-th statement of
the request inserts the head chunk; a throw leaves the loop with the message. -/
def insertChunks (fault : Nat → Option Str) (docId : Nat) : List Str → Nat → Store → Option Str × Store
  | [], _, s => (none, s)
  | chunk :: rest, i, s =>
    match fault i with
    | some msg => (some msg, s)
    | none => insertChunks fault docId rest (i + 1) (insertChunk docId chunk s)

/-- The message of the TypeError thrown by `file.mimetype` when `req.file` is undefined. -/
def undefinedFile : Str := "Cannot read properties of undefined (reading 'mimetype')".toList

/-- The handler of `POST /upload`: extract, chunk, insert the document, insert the chunks;
whatever is thrown is answered with status 500 and its message. -/
def uploadHandler (env : Env) (reqFile : Option UploadedFile) (s : Store) : Response × Store :=
  match reqFile with
  | none => ({ status := 500, body := .error undefinedFile }, s)
  | some file =>
    match extractText env file with
    | .error msg => ({ status := 500, body := .error msg }, s)
    | .ok text =>
      let chunks := chunksOf text
      match env.fault 0 with
      | some msg => ({ status := 500, body := .error msg }, s)
      | none =>
        let docRes := insertDocument file.originalname s
        let docId := docRes.2
        match insertChunks env.fault docId chunks 1 docRes.1 with
        | (some msg, s1) => ({ status := 500, body := .error msg }, s1)
        | (none, s1) =>
          ({ status := 200, body := .message "File uploaded and processed".toList }, s1)

/-- The route `POST /upload`: the multer middleware `upload.single('file')` runs the file
filter on the file part; its error goes to the default error handler of Express (status
500) and the handler is skipped. -/
def postUpload (env : Env) (reqFile : Option UploadedFile) (s : Store) : Response × Store :=
  match reqFile with
  | none => uploadHandler env none s
  | some file =>
    match fileFilter file with
    | .error msg => ({ status := 500, body := .errorPage msg }, s)
    | .ok _ => uploadHandler env (some file) s

/-- The route `POST /query`: the rows matching `%question%`, at most five, as answers;
`coll` is the collation of the database the pool is connected to. -/
def postQuery (coll : Collation) (fault : Option Str) (question : Str) (s : Store) : Response :=
  match fault with
  | some msg => { status := 500, body := .error msg }
  | none =>
    let rows := selectChunks coll ('%' :: question ++ ['%']) s
    let answers := rows.map (fun row => row.chunk_text)
    { status := 200, body := .answers answers }

/-- A sequence of upload requests, each with its own environment, run in order. -/
def runUploads : List (Env × Option UploadedFile) → Store → Store
  | [], s => s
  | (env, reqFile) :: rest, s => runUploads rest (postUpload env reqFile s).2

/-! ## The client -/

/-- How a request of the client ends: with a response, or with an error that carries an
optional `code`, an optional `response.data.error` and a `message`. -/
inductive Outcome where
  | ok (answers : List Str)
  | fail (code : Option Str) (responseError : Option Str) (message : Str)
deriving DecidableEq, Repr

/-- What the client does that can be observed. -/
inductive Event where
  | alert (msg : Str)
  | playScream
  | setIsLoading (b : Bool)
  | post (url : Str)
  | consoleError
  | consoleLog (retryCount delay : Nat)
  | setTimeout (delay : Nat)
  | setAnswers (a : List Str)
deriving DecidableEq, Repr

/-- The test `err.code === 'ERR_NETWORK' || err.code === 'ECONNABORTED'`. -/
def retryable (code : Option Str) : Bool :=
  decide (code = some "ERR_NETWORK".toList) || decide (code = some "ECONNABORTED".toList)

/-- The expression `err.response?.data?.error || err.message`. -/
def failureText (responseError : Option Str) (message : Str) : Str :=
  match responseError with
  | some e => if truthy e then e else message
  | none => message

/-- The function `handleUpload(retryCount, delay)`; `attempt` counts the requests made
before this call, and the call scheduled with `setTimeout` follows in the trace. -/
def handleUpload (file : Option UploadedFile) (outcomes : Nat → Outcome)
    (retryCount delay attempt : Nat) : List Event :=
  match file with
  | none => [.alert "Please select a file first!".toList, .playScream]
  | some _ =>
    [.setIsLoading true, .post "/upload".toList] ++
    match outcomes attempt with
    | .ok _ => [.alert "File consumed by the beast!".toList, .setIsLoading false]
    | .fail code responseError message =>
      .consoleError ::
      if h : retryCount > 0 ∧ retryable code = true then
        [.consoleLog retryCount delay, .setTimeout delay, .setIsLoading false] ++
          handleUpload file outcomes (retryCount - 1) (delay * 2) (attempt + 1)
      else
        [.alert ("Upload failed: ".toList ++ failureText responseError message), .playScream,
          .setIsLoading false]
termination_by retryCount
decreasing_by omega

/-- The function `handleQuery(retryCount, delay)`, with the same conventions. -/
def handleQuery (question : Str) (outcomes : Nat → Outcome)
    (retryCount delay attempt : Nat) : List Event :=
  if !truthy question then [.alert "Dare to ask the monster a question!".toList, .playScream]
  else
    [.setIsLoading true, .post "/query".toList] ++
    match outcomes attempt with
    | .ok answers => [.setAnswers answers, .setIsLoading false]
    | .fail code responseError message =>
      .consoleError ::
      if h : retryCount > 0 ∧ retryable code = true then
        [.consoleLog retryCount delay, .setTimeout delay, .setIsLoading false] ++
          handleQuery question outcomes (retryCount - 1) (delay * 2) (attempt + 1)
      else
        [.alert ("Query failed: ".toList ++ failureText responseError message), .playScream,
          .setIsLoading false]
termination_by retryCount
decreasing_by omega

/-- The number of requests in a trace. -/
def requests (tr : List Event) : Nat :=
  tr.countP (fun e => match e with | .post _ => true | _ => false)

/-- The delays of the timers set in a trace, in order. -/
def delays (tr : List Event) : List Nat :=
  tr.filterMap (fun e => match e with | .setTimeout d => some d | _ => none)

/-- A failure of the network or timeout class, as the retry contract names it: a failed
request whose code is ERR_NETWORK or ECONNABORTED. It is stated on the outcome alone and
does not go through the test of the handlers. -/
def networkOrTimeout : Outcome → Bool
  | .ok _ => false
  | .fail code _ _ =>
    decide (code = some ['E', 'R', 'R', '_', 'N', 'E', 'T', 'W', 'O', 'R', 'K'] ∨
      code = some ['E', 'C', 'O', 'N', 'N', 'A', 'B', 'O', 'R', 'T', 'E', 'D'])

/-- The number of network or timeout failures at the head of the outcomes from `attempt`
on, at most `cap`. -/
def leadingRetryable (outcomes : Nat → Outcome) : Nat → Nat → Nat
  | _, 0 => 0
  | attempt, cap + 1 =>
    if networkOrTimeout (outcomes attempt) then leadingRetryable outcomes (attempt + 1) cap + 1
    else 0

/-! ## Auxiliary definitions for the statements -/

/-- The chunk rows that consecutive inserts create from the sequence value `seq` on. -/
def chunkRows (docId : Nat) : Nat → List Str → List ChunkRow
  | _, [] => []
  | seq, c :: cs => { id := seq, doc_id := docId, chunk_text := c } :: chunkRows docId (seq + 1) cs

/-- A sample environment: both extractors return the text of the scenario, no statement
throws. -/
def sampleEnv : Env :=
  { pdfParse := fun _ => .ok "alpha\nbeta\n\ngamma".toList,
    extractRawText := fun _ => .ok "alpha\nbeta\n\ngamma".toList,
    fault := fun _ => none }

/-- A sample PDF upload. -/
def samplePdf : UploadedFile :=
  { originalname := "report.pdf".toList, mimetype := mimePdf, buffer := [] }

/-- A sample upload with an allowed extension and a MIME type that the handler does not
extract from. -/
def sampleBadMime : UploadedFile :=
  { originalname := "report.pdf".toList, mimetype := "text/plain".toList, buffer := [] }

/-- A sample upload with a disallowed extension. -/
def sampleTxt : UploadedFile :=
  { originalname := "notes.txt".toList, mimetype := "text/plain".toList, buffer := [] }

/-- Referential integrity: every chunk row references an existing document row. -/
def refIntegrity (s : Store) : Prop :=
  ∀ c ∈ s.chunks, ∃ d ∈ s.documents, d.id = c.doc_id

/-- The store after the document insert of an upload and the inserts of its first `n`
chunks. -/
def afterInserts (file : UploadedFile) (T : Str) (n : Nat) (s : Store) : Store :=
  { documents := s.documents ++ [{ id := s.docSeq, name := file.originalname }],
    chunks := s.chunks ++ chunkRows s.docSeq s.chunkSeq ((chunksOf T).take n),
    docSeq := s.docSeq + 1,
    chunkSeq := s.chunkSeq + n }

/-- A sample environment whose PDF extractor throws. -/
def sampleEnvBadPdf : Env :=
  { pdfParse := fun _ => .error "Invalid PDF structure".toList,
    extractRawText := fun _ => .ok [],
    fault := fun _ => none }

/-- A sample environment in which the insert of the second chunk throws. -/
def sampleEnvFault : Env :=
  { pdfParse := fun _ => .ok "alpha\nbeta\n\ngamma".toList,
    extractRawText := fun _ => .ok "alpha\nbeta\n\ngamma".toList,
    fault := fun j => if j = 2 then some "Connection terminated".toList else none }

/-- A string with none of the characters that `LIKE` treats specially. -/
def noMeta (q : Str) : Prop := ∀ c ∈ q, c ≠ '%' ∧ c ≠ '_' ∧ c ≠ '\\'

instance noMeta_decidable (q : Str) : Decidable (noMeta q) := by
  unfold noMeta
  infer_instance

/-- A text contains a query as a literal substring, ignoring case: the query lower-cased
by the collation is a contiguous part of the text lower-cased by the collation. -/
def containsIgnoreCase (coll : Collation) (text q : Str) : Prop :=
  coll.lower q <:+: coll.lower text

instance containsIgnoreCase_decidable (coll : Collation) (text q : Str) :
    Decidable (containsIgnoreCase coll text q) := by
  unfold containsIgnoreCase
  infer_instance

/-- The answers carried by a response, none for an error. -/
def answersOf (r : Response) : List Str :=
  match r.body with
  | .answers a => a
  | _ => []

/-- A store holding the given chunk texts under one document. -/
def storeOf (texts : List Str) : Store :=
  { documents := [{ id := 1, name := "report.pdf".toList }],
    chunks := chunkRows 1 1 texts,
    docSeq := 2,
    chunkSeq := texts.length + 1 }

/-- A sample sequence of outcomes: every request fails with a network error. -/
def sampleOutcomes : Nat → Outcome :=
  fun _ => .fail (some "ERR_NETWORK".toList) none "Network Error".toList

/-- A sample sequence of outcomes: every request fails with a code outside the network
and timeout class. -/
def sampleBadResponse : Nat → Outcome :=
  fun _ => .fail (some "ERR_BAD_RESPONSE".toList) (some "relation does not exist".toList)
    "Request failed with status code 500".toList

/-! ## Lemmas on strings and on the insert loop -/

theorem split_ne_nil (sep : Char) (t : Str) : split sep t ≠ [] := by
  induction t with
  | nil => simp [split]
  | cons c cs ih =>
    unfold split
    split
    · simp
    · split <;> simp

theorem split_intercalate (sep : Char) (t : Str) :
    List.intercalate [sep] (split sep t) = t := by
  induction t with
  | nil => simp [split, List.intercalate]
  | cons c cs ih =>
    unfold split
    split
    · rename_i h
      subst h
      rcases hs : split c cs with _ | ⟨l, ls⟩
      · exact absurd hs (split_ne_nil _ _)
      · rw [hs] at ih
        rw [← ih]
        simp [List.intercalate, List.intersperse]
    · rcases hs : split sep cs with _ | ⟨l, ls⟩
      · exact absurd hs (split_ne_nil _ _)
      · rw [hs] at ih
        rw [← ih]
        cases ls <;> simp [List.intercalate, List.intersperse]

theorem split_no_sep (sep : Char) (t : Str) : ∀ l ∈ split sep t, sep ∉ l := by
  induction t with
  | nil => simp [split]
  | cons c cs ih =>
    unfold split
    split
    · intro l hl
      simp only [List.mem_cons] at hl
      rcases hl with rfl | hl
      · simp
      · exact ih l hl
    · rename_i hne
      rcases hs : split sep cs with _ | ⟨l, ls⟩
      · exact absurd hs (split_ne_nil _ _)
      · rw [hs] at ih
        intro l1 hl
        simp only [List.mem_cons] at hl
        rcases hl with rfl | hl
        · have := ih l (by simp)
          simp only [List.mem_cons, not_or]
          exact ⟨fun h => hne h.symm, this⟩
        · exact ih l1 (by simp [hl])

theorem truthy_eq (s : Str) : truthy s = decide (s ≠ []) := by
  cases s <;> simp [truthy]

theorem insertChunks_ok (fault : Nat → Option Str) (docId : Nat) (cs : List Str) :
    ∀ (i : Nat) (s : Store), (∀ j, j < cs.length → fault (i + j) = none) →
      insertChunks fault docId cs i s =
        (none, { s with chunks := s.chunks ++ chunkRows docId s.chunkSeq cs,
                        chunkSeq := s.chunkSeq + cs.length }) := by
  induction cs with
  | nil => intro i s _; simp [insertChunks, chunkRows]
  | cons c cs ih =>
    intro i s h
    have h0 : fault i = none := by simpa using h 0 (by simp)
    simp only [insertChunks, h0]
    rw [ih (i + 1) (insertChunk docId c s)
      (fun j hj => by have := h (j + 1) (by simpa using hj); rwa [Nat.add_assoc, Nat.add_comm 1 j])]
    simp [insertChunk, chunkRows, Nat.add_assoc, Nat.add_comm 1]

theorem chunkRows_text (docId seq : Nat) (cs : List Str) :
    (chunkRows docId seq cs).map (fun r => r.chunk_text) = cs := by
  induction cs generalizing seq with
  | nil => rfl
  | cons c cs ih => simp [chunkRows, ih]

theorem insertChunks_fail (fault : Nat → Option Str) (docId : Nat) (msg : Str) (cs : List Str) :
    ∀ (k i : Nat) (s : Store), k < cs.length → (∀ j, j < k → fault (i + j) = none) →
      fault (i + k) = some msg →
      insertChunks fault docId cs i s =
        (some msg, { s with chunks := s.chunks ++ chunkRows docId s.chunkSeq (cs.take k),
                            chunkSeq := s.chunkSeq + k }) := by
  induction cs with
  | nil => intro k i s hk; simp at hk
  | cons c cs ih =>
    intro k i s hk hno hk1
    cases k with
    | zero =>
      have h0 : fault i = some msg := by simpa using hk1
      simp [insertChunks, h0, chunkRows]
    | succ k =>
      have h0 : fault i = none := by simpa using hno 0 (by simp)
      simp only [insertChunks, h0]
      rw [ih k (i + 1) (insertChunk docId c s) (by simpa using hk)
        (fun j hj => by
          have := hno (j + 1) (by omega)
          rwa [Nat.add_assoc, Nat.add_comm 1 j])
        (by rwa [Nat.add_assoc, Nat.add_comm 1 k])]
      simp [insertChunk, chunkRows, Nat.add_assoc, Nat.add_comm 1]

theorem uploadHandler_ok (env : Env) (file : UploadedFile) (s : Store) (T : Str)
    (hT : extractText env file = .ok T)
    (hdb : ∀ j, j ≤ (chunksOf T).length → env.fault j = none) :
    uploadHandler env (some file) s =
      ({ status := 200, body := .message "File uploaded and processed".toList },
       { documents := s.documents ++ [{ id := s.docSeq, name := file.originalname }],
         chunks := s.chunks ++ chunkRows s.docSeq s.chunkSeq (chunksOf T),
         docSeq := s.docSeq + 1,
         chunkSeq := s.chunkSeq + (chunksOf T).length }) := by
  have h0 : env.fault 0 = none := hdb 0 (Nat.zero_le _)
  simp only [uploadHandler, hT, h0]
  rw [insertChunks_ok env.fault _ (chunksOf T) 1 _ (fun j hj => hdb (1 + j) (by omega))]
  simp [insertDocument]

theorem postUpload_pass (env : Env) (file : UploadedFile) (s : Store)
    (hf : fileFilter file = .ok true) :
    postUpload env (some file) s = uploadHandler env (some file) s := by
  simp [postUpload, hf]

/-- C1: the lines of a text `T` are its segments between line feeds (joined by line feeds
they give `T` back and none contains a line feed); the chunks of `T` are those lines
whose trimmed form is not empty, in the same order, so their number is the number of
non-blank lines; an upload that passes the filter, extracts `T` and meets no failing
statement appends exactly these chunks, in order, to the stored chunk texts; and the text
of the scenario gives the three chunks alpha, beta, gamma. -/
theorem C1_stored_chunks_are_nonblank_lines (env : Env) (file : UploadedFile) (s : Store)
    (T : Str) (hf : fileFilter file = .ok true) (hT : extractText env file = .ok T)
    (hdb : ∀ j, env.fault j = none) :
    (List.intercalate ['\n'] (split '\n' T) = T ∧ ∀ l ∈ split '\n' T, '\n' ∉ l) ∧
    chunksOf T = (split '\n' T).filter (fun l => decide (trim l ≠ [])) ∧
    (chunksOf T).length = (split '\n' T).countP (fun l => decide (trim l ≠ [])) ∧
    (postUpload env (some file) s).2.chunks.map (fun r => r.chunk_text) =
      s.chunks.map (fun r => r.chunk_text) ++ chunksOf T ∧
    chunksOf "alpha\nbeta\n\ngamma".toList = ["alpha".toList, "beta".toList, "gamma".toList] := by
  have hc : chunksOf T = (split '\n' T).filter (fun l => decide (trim l ≠ [])) := by
    unfold chunksOf
    congr 1
    funext l
    exact truthy_eq _
  refine ⟨⟨split_intercalate _ _, split_no_sep _ _⟩, hc, ?_, ?_, by decide⟩
  · rw [hc, List.countP_eq_length_filter]
  · rw [postUpload_pass env file s hf, uploadHandler_ok env file s T hT (fun j _ => hdb j)]
    simp [chunkRows_text]

theorem C1_stored_chunks_are_nonblank_lines_witness :
    fileFilter samplePdf = .ok true ∧
    extractText sampleEnv samplePdf = .ok "alpha\nbeta\n\ngamma".toList ∧
    (postUpload sampleEnv (some samplePdf) Store.empty).2.chunks.map (fun r => r.chunk_text) =
      ["alpha".toList, "beta".toList, "gamma".toList] :=
  ⟨by rfl, by rfl, by
    have h := C1_stored_chunks_are_nonblank_lines sampleEnv samplePdf Store.empty
      "alpha\nbeta\n\ngamma".toList (by rfl) (by rfl) (fun _ => rfl)
    rw [h.2.2.2.1, h.2.2.2.2]
    rfl⟩

theorem insertChunks_store (fault : Nat → Option Str) (docId : Nat) (cs : List Str) :
    ∀ (i : Nat) (s : Store), ∃ n, n ≤ cs.length ∧
      (insertChunks fault docId cs i s).2 =
        { s with chunks := s.chunks ++ chunkRows docId s.chunkSeq (cs.take n),
                 chunkSeq := s.chunkSeq + n } := by
  induction cs with
  | nil => intro i s; exact ⟨0, by simp, by simp [insertChunks, chunkRows]⟩
  | cons c cs ih =>
    intro i s
    cases h0 : fault i with
    | some msg => exact ⟨0, by simp, by simp [insertChunks, h0, chunkRows]⟩
    | none =>
      obtain ⟨n, hn, hs⟩ := ih (i + 1) (insertChunk docId c s)
      refine ⟨n + 1, by simpa using hn, ?_⟩
      simp only [insertChunks, h0, hs]
      simp [insertChunk, chunkRows, Nat.add_assoc, Nat.add_comm 1]

theorem chunkRows_mem (docId : Nat) (cs : List Str) :
    ∀ (seq : Nat) (r : ChunkRow), r ∈ chunkRows docId seq cs →
      r.doc_id = docId ∧ r.chunk_text ∈ cs := by
  induction cs with
  | nil => intro seq r h; simp [chunkRows] at h
  | cons c cs ih =>
    intro seq r h
    simp only [chunkRows, List.mem_cons] at h
    rcases h with rfl | h
    · simp
    · have := ih (seq + 1) r h
      exact ⟨this.1, List.mem_cons_of_mem _ this.2⟩

theorem uploadHandler_store (env : Env) (file : UploadedFile) (s : Store) :
    (uploadHandler env (some file) s).2 = s ∨
    ∃ T n, extractText env file = .ok T ∧ n ≤ (chunksOf T).length ∧
      (uploadHandler env (some file) s).2 = afterInserts file T n s := by
  cases hT : extractText env file with
  | error msg => left; simp [uploadHandler, hT]
  | ok T =>
    cases h0 : env.fault 0 with
    | some msg => left; simp [uploadHandler, hT, h0]
    | none =>
      right
      obtain ⟨n, hn, hs⟩ := insertChunks_store env.fault (insertDocument file.originalname s).2
        (chunksOf T) 1 (insertDocument file.originalname s).1
      refine ⟨T, n, rfl, hn, ?_⟩
      simp only [uploadHandler, hT, h0]
      rcases hi : insertChunks env.fault (insertDocument file.originalname s).2 (chunksOf T) 1
        (insertDocument file.originalname s).1 with ⟨r, s1⟩
      rw [hi] at hs
      simp only at hs
      cases r <;> simp only [hs] <;> simp [insertDocument, afterInserts]

theorem postUpload_store (env : Env) (reqFile : Option UploadedFile) (s : Store) :
    (postUpload env reqFile s).2 = s ∨
    ∃ file T n, reqFile = some file ∧ extractText env file = .ok T ∧
      n ≤ (chunksOf T).length ∧ (postUpload env reqFile s).2 = afterInserts file T n s := by
  cases reqFile with
  | none => left; simp [postUpload, uploadHandler]
  | some file =>
    cases hf : fileFilter file with
    | error msg => left; simp [postUpload, hf]
    | ok b =>
      have hp : postUpload env (some file) s = uploadHandler env (some file) s := by
        simp [postUpload, hf]
      rw [hp]
      rcases uploadHandler_store env file s with h | ⟨T, n, hT, hn, h⟩
      · left; exact h
      · right; exact ⟨file, T, n, rfl, hT, hn, h⟩

theorem chunksOf_nonblank (T : Str) : ∀ c ∈ chunksOf T, trim c ≠ [] := by
  intro c hc
  unfold chunksOf at hc
  have := (List.mem_filter.mp hc).2
  rw [truthy_eq] at this
  simpa using this

theorem postUpload_nonblank (env : Env) (reqFile : Option UploadedFile) (s : Store)
    (h : ∀ c ∈ s.chunks, trim c.chunk_text ≠ []) :
    ∀ c ∈ (postUpload env reqFile s).2.chunks, trim c.chunk_text ≠ [] := by
  rcases postUpload_store env reqFile s with hs | ⟨file, T, n, _, _, _, hs⟩
  · rw [hs]; exact h
  · rw [hs]
    intro c hc
    simp only [afterInserts, List.mem_append] at hc
    rcases hc with hc | hc
    · exact h c hc
    · exact chunksOf_nonblank T _ (List.mem_of_mem_take (chunkRows_mem _ _ _ _ hc).2)

theorem runUploads_nonblank (ops : List (Env × Option UploadedFile)) :
    ∀ s : Store, (∀ c ∈ s.chunks, trim c.chunk_text ≠ []) →
      ∀ c ∈ (runUploads ops s).chunks, trim c.chunk_text ≠ [] := by
  induction ops with
  | nil => intro s h; exact h
  | cons op ops ih =>
    intro s h
    obtain ⟨env, reqFile⟩ := op
    exact ih _ (postUpload_nonblank env reqFile s h)

/-- C5: after any sequence of upload requests run from the empty store, whatever the
extractors return and whichever statements fail, every chunk row has a text whose trimmed
form is not empty. -/
theorem C5_no_blank_chunk_stored (ops : List (Env × Option UploadedFile)) :
    ∀ c ∈ (runUploads ops Store.empty).chunks, trim c.chunk_text ≠ [] :=
  runUploads_nonblank ops Store.empty (by simp [Store.empty])

theorem C5_no_blank_chunk_stored_witness :
    ({ id := 1, doc_id := 1, chunk_text := "alpha".toList } : ChunkRow) ∈
      (runUploads [(sampleEnv, some samplePdf), (sampleEnvFault, some samplePdf)]
        Store.empty).chunks ∧
    trim "alpha".toList ≠ [] :=
  ⟨by decide,
   C5_no_blank_chunk_stored [(sampleEnv, some samplePdf), (sampleEnvFault, some samplePdf)]
     { id := 1, doc_id := 1, chunk_text := "alpha".toList } (by decide)⟩

/-- C6: an upload request preserves referential integrity, whether it succeeds or stops
at a failing statement: the chunk rows after it are the rows before it followed by the
rows it added, every added row carries the id returned by the document insert of this
request, and the document row with that id and the name of the uploaded file is in the
store. -/
theorem C6_referential_integrity_preserved (env : Env) (reqFile : Option UploadedFile)
    (s : Store) (h : refIntegrity s) :
    refIntegrity (postUpload env reqFile s).2 ∧
    ∃ added, (postUpload env reqFile s).2.chunks = s.chunks ++ added ∧
      ∀ c ∈ added, ∃ file, reqFile = some file ∧
        c.doc_id = (insertDocument file.originalname s).2 ∧
        { id := c.doc_id, name := file.originalname } ∈ (postUpload env reqFile s).2.documents := by
  rcases postUpload_store env reqFile s with hs | ⟨file, T, n, hreq, _, _, hs⟩
  · rw [hs]
    exact ⟨h, [], by simp, by simp⟩
  · rw [hs]
    refine ⟨?_, chunkRows s.docSeq s.chunkSeq ((chunksOf T).take n), rfl, ?_⟩
    · intro c hc
      simp only [afterInserts, List.mem_append] at hc
      rcases hc with hc | hc
      · obtain ⟨d, hd, hid⟩ := h c hc
        exact ⟨d, by simp [afterInserts, hd], hid⟩
      · exact ⟨{ id := s.docSeq, name := file.originalname }, by simp [afterInserts],
          ((chunkRows_mem _ _ _ _ hc).1).symm⟩
    · intro c hc
      have hd := (chunkRows_mem _ _ _ _ hc).1
      exact ⟨file, hreq, by simp [insertDocument, hd], by simp [afterInserts, hd]⟩

theorem C6_referential_integrity_preserved_witness :
    refIntegrity Store.empty ∧
    refIntegrity (postUpload sampleEnv (some samplePdf) Store.empty).2 :=
  ⟨by simp [refIntegrity, Store.empty],
   (C6_referential_integrity_preserved sampleEnv (some samplePdf) Store.empty
     (by simp [refIntegrity, Store.empty])).1⟩

theorem chunksOf_nil : chunksOf [] = [] := by decide

theorem extractText_other (env : Env) (file : UploadedFile) (h1 : file.mimetype ≠ mimePdf)
    (h2 : file.mimetype ≠ mimeDocx) : extractText env file = .ok [] := by
  simp [extractText, h1, h2]

/-- C3: an upload whose lower-cased extension is neither `.pdf` nor `.docx` is refused
by the file filter, the route answers with the error of the filter without running the
handler and leaves the store as it was; an upload whose lower-cased extension is `.pdf`
or `.docx` passes the filter and reaches the handler. A file named notes.txt is refused
with the store unchanged, and the extensions `.PDF` and `.DocX` pass. -/
theorem C3_disallowed_extension_rejected (env : Env) (file : UploadedFile) (s : Store) :
    (toLowerCase (extname file.originalname) ≠ ".pdf".toList →
      toLowerCase (extname file.originalname) ≠ ".docx".toList →
        fileFilter file = .error onlyPdfDocx ∧
        postUpload env (some file) s = ({ status := 500, body := .errorPage onlyPdfDocx }, s) ∧
        (postUpload env (some file) s).2.documents = s.documents ∧
        (postUpload env (some file) s).2.chunks = s.chunks) ∧
    (toLowerCase (extname file.originalname) = ".pdf".toList ∨
      toLowerCase (extname file.originalname) = ".docx".toList →
        fileFilter file = .ok true ∧
        postUpload env (some file) s = uploadHandler env (some file) s) ∧
    postUpload env (some { file with originalname := "notes.txt".toList }) s =
      ({ status := 500, body := .errorPage onlyPdfDocx }, s) ∧
    fileFilter { file with originalname := "Report.PDF".toList } = .ok true ∧
    fileFilter { file with originalname := "thesis.DocX".toList } = .ok true := by
  have hrej : ∀ f : UploadedFile, toLowerCase (extname f.originalname) ≠ ".pdf".toList →
      toLowerCase (extname f.originalname) ≠ ".docx".toList →
      fileFilter f = .error onlyPdfDocx := by
    intro f h1 h2
    unfold fileFilter
    exact if_pos ⟨h1, h2⟩
  have hpass : ∀ f : UploadedFile, (toLowerCase (extname f.originalname) = ".pdf".toList ∨
      toLowerCase (extname f.originalname) = ".docx".toList) → fileFilter f = .ok true := by
    intro f h
    unfold fileFilter
    exact if_neg (fun hn => by
      rcases h with h | h
      · exact hn.1 h
      · exact hn.2 h)
  have hpost : ∀ f : UploadedFile, fileFilter f = .error onlyPdfDocx →
      postUpload env (some f) s = ({ status := 500, body := .errorPage onlyPdfDocx }, s) := by
    intro f hf
    simp [postUpload, hf]
  refine ⟨?_, ?_, ?_, ?_, ?_⟩
  · intro h1 h2
    have hp := hpost file (hrej file h1 h2)
    exact ⟨hrej file h1 h2, hp, by rw [hp], by rw [hp]⟩
  · intro h
    exact ⟨hpass file h, postUpload_pass env file s (hpass file h)⟩
  · exact hpost _ (hrej _
      (show toLowerCase (extname "notes.txt".toList) ≠ ".pdf".toList by decide)
      (show toLowerCase (extname "notes.txt".toList) ≠ ".docx".toList by decide))
  · exact hpass _ (Or.inl (show toLowerCase (extname "Report.PDF".toList) = ".pdf".toList by decide))
  · exact hpass _ (Or.inr (show toLowerCase (extname "thesis.DocX".toList) = ".docx".toList by decide))

theorem C3_disallowed_extension_rejected_witness :
    toLowerCase (extname sampleTxt.originalname) ≠ ".pdf".toList ∧
    toLowerCase (extname sampleTxt.originalname) ≠ ".docx".toList ∧
    postUpload sampleEnv (some sampleTxt) Store.empty =
      ({ status := 500, body := .errorPage onlyPdfDocx }, Store.empty) ∧
    toLowerCase (extname samplePdf.originalname) = ".pdf".toList ∧
    fileFilter samplePdf = .ok true :=
  ⟨by decide, by decide,
   ((C3_disallowed_extension_rejected sampleEnv sampleTxt Store.empty).1
      (by decide) (by decide)).2.1,
   by decide,
   ((C3_disallowed_extension_rejected sampleEnv samplePdf Store.empty).2.1
      (Or.inl (by decide))).1⟩

/-- C4 as stated fails: a file named report.pdf with MIME type text/plain passes the
filter, the handler answers 200 and a document row is created. -/
theorem C4_bad_mime_not_rejected :
    sampleBadMime.mimetype ≠ mimePdf ∧ sampleBadMime.mimetype ≠ mimeDocx ∧
    (postUpload sampleEnv (some sampleBadMime) Store.empty).1.status = 200 ∧
    (postUpload sampleEnv (some sampleBadMime) Store.empty).2.documents =
      [{ id := 1, name := "report.pdf".toList }] ∧
    (postUpload sampleEnv (some sampleBadMime) Store.empty).2 ≠ Store.empty := by
  decide

/-- C4 amended: an upload whose MIME type is neither the PDF nor the DOCX type never
creates a chunk row. It is rejected before any store mutation when its extension is not
allowed. When its extension is allowed the handler runs on the empty text: if the document
insert succeeds it creates one document row with the original file name and answers 200
with no chunk row, and if the document insert fails it answers 500 with the message and
leaves the store unchanged. -/
theorem C4_bad_mime_amended (env : Env) (file : UploadedFile) (s : Store)
    (h1 : file.mimetype ≠ mimePdf) (h2 : file.mimetype ≠ mimeDocx) :
    (postUpload env (some file) s).2.chunks = s.chunks ∧
    (fileFilter file = .error onlyPdfDocx →
      postUpload env (some file) s = ({ status := 500, body := .errorPage onlyPdfDocx }, s)) ∧
    (fileFilter file = .ok true → env.fault 0 = none →
      postUpload env (some file) s =
        ({ status := 200, body := .message "File uploaded and processed".toList },
         { s with documents := s.documents ++ [{ id := s.docSeq, name := file.originalname }],
                  docSeq := s.docSeq + 1 })) ∧
    (fileFilter file = .ok true → ∀ msg, env.fault 0 = some msg →
      postUpload env (some file) s = ({ status := 500, body := .error msg }, s)) := by
  have hT := extractText_other env file h1 h2
  have hok : fileFilter file = .ok true → env.fault 0 = none →
      postUpload env (some file) s =
        ({ status := 200, body := .message "File uploaded and processed".toList },
         { s with documents := s.documents ++ [{ id := s.docSeq, name := file.originalname }],
                  docSeq := s.docSeq + 1 }) := by
    intro hf h0
    rw [postUpload_pass env file s hf, uploadHandler_ok env file s [] hT
      (fun j hj => by
        rw [chunksOf_nil] at hj
        have : j = 0 := by simpa using hj
        rw [this]; exact h0)]
    simp [chunksOf_nil, chunkRows]
  have hfail : fileFilter file = .ok true → ∀ msg, env.fault 0 = some msg →
      postUpload env (some file) s = ({ status := 500, body := .error msg }, s) := by
    intro hf msg h0
    rw [postUpload_pass env file s hf]
    simp [uploadHandler, hT, h0]
  have herr : fileFilter file = .error onlyPdfDocx →
      postUpload env (some file) s = ({ status := 500, body := .errorPage onlyPdfDocx }, s) := by
    intro hf
    simp [postUpload, hf]
  refine ⟨?_, herr, hok, hfail⟩
  rcases postUpload_store env (some file) s with hs | ⟨file1, T, n, hreq, hT1, hn, hs⟩
  · rw [hs]
  · cases hreq
    rw [hT] at hT1
    cases hT1
    rw [hs]
    simp [afterInserts, chunksOf_nil, chunkRows]

theorem C4_bad_mime_amended_witness :
    sampleBadMime.mimetype ≠ mimePdf ∧ sampleBadMime.mimetype ≠ mimeDocx ∧
    (postUpload sampleEnv (some sampleBadMime) Store.empty).2.chunks = Store.empty.chunks :=
  ⟨by decide, by decide,
   (C4_bad_mime_amended sampleEnv sampleBadMime Store.empty (by decide) (by decide)).1⟩

/-- C8: when an upload passes the filter and extracts a text with at least `k` chunks
(`k` at least 1), the document insert and the first `k - 1` chunk inserts succeed and the
insert of the `k`-th chunk throws, the route answers 500 with the message thrown, and the
store afterwards is the store before with the new document row and the rows of exactly
the first `k - 1` chunks appended: nothing is undone and no later chunk is inserted. -/
theorem C8_upload_not_atomic (env : Env) (file : UploadedFile) (s : Store) (T msg : Str)
    (k : Nat) (hf : fileFilter file = .ok true) (hT : extractText env file = .ok T)
    (hk1 : 1 ≤ k) (hkm : k ≤ (chunksOf T).length) (hno : ∀ j, j < k → env.fault j = none)
    (hk : env.fault k = some msg) :
    postUpload env (some file) s =
      ({ status := 500, body := .error msg },
       { documents := s.documents ++ [{ id := s.docSeq, name := file.originalname }],
         chunks := s.chunks ++ chunkRows s.docSeq s.chunkSeq ((chunksOf T).take (k - 1)),
         docSeq := s.docSeq + 1,
         chunkSeq := s.chunkSeq + (k - 1) }) := by
  have h0 : env.fault 0 = none := hno 0 (by omega)
  rw [postUpload_pass env file s hf]
  simp only [uploadHandler, hT, h0]
  rw [insertChunks_fail env.fault _ msg (chunksOf T) (k - 1) 1 _ (by omega)
    (fun j hj => hno (1 + j) (by omega))
    (by rw [show 1 + (k - 1) = k by omega]; exact hk)]
  simp [insertDocument]

theorem C8_upload_not_atomic_witness :
    postUpload sampleEnvFault (some samplePdf) Store.empty =
      ({ status := 500, body := .error "Connection terminated".toList },
       { documents := [{ id := 1, name := "report.pdf".toList }],
         chunks := [{ id := 1, doc_id := 1, chunk_text := "alpha".toList }],
         docSeq := 2, chunkSeq := 2 }) :=
  C8_upload_not_atomic sampleEnvFault samplePdf Store.empty "alpha\nbeta\n\ngamma".toList
    "Connection terminated".toList 2 (by rfl) (by rfl) (by decide) (by decide)
    (fun j hj => by
      have : j ≠ 2 := by omega
      simp [sampleEnvFault, this])
    (by rfl)

/-- C9: when an upload passes the filter and its extractor throws (`pdfParse` for the PDF
type, `mammoth.extractRawText` for the DOCX type), the route answers 500 with the message
thrown and the store is unchanged: no document row and no chunk row is created. -/
theorem C9_extraction_failure_leaves_store (env : Env) (file : UploadedFile) (s : Store)
    (msg : Str) (hf : fileFilter file = .ok true)
    (hx : (file.mimetype = mimePdf ∧ env.pdfParse file.buffer = .error msg) ∨
      (file.mimetype = mimeDocx ∧ env.extractRawText file.buffer = .error msg)) :
    postUpload env (some file) s = ({ status := 500, body := .error msg }, s) ∧
    (postUpload env (some file) s).2.documents = s.documents ∧
    (postUpload env (some file) s).2.chunks = s.chunks := by
  have hT : extractText env file = .error msg := by
    rcases hx with ⟨hm, he⟩ | ⟨hm, he⟩
    · simp [extractText, hm, he]
    · have hne : mimeDocx ≠ mimePdf := by decide
      simp [extractText, hm, he, hne]
  have hp : postUpload env (some file) s = ({ status := 500, body := .error msg }, s) := by
    rw [postUpload_pass env file s hf]
    simp [uploadHandler, hT]
  exact ⟨hp, by rw [hp], by rw [hp]⟩

theorem C9_extraction_failure_leaves_store_witness :
    postUpload sampleEnvBadPdf (some samplePdf) Store.empty =
      ({ status := 500, body := .error "Invalid PDF structure".toList }, Store.empty) :=
  (C9_extraction_failure_leaves_store sampleEnvBadPdf samplePdf Store.empty
    "Invalid PDF structure".toList (by rfl) (Or.inl ⟨by rfl, by rfl⟩)).1

/-! ## Lemmas on pattern matching -/

theorem toLower_eq_of_not_letter (c m : Char) (hm : m.toNat < 97 ∨ 122 < m.toNat)
    (h : c.toLower = m) : c = m := by
  unfold Char.toLower at h
  simp only at h
  split at h
  · exfalso
    have h2 : (Char.ofNat (c.toNat + 32)).toNat = m.toNat := by rw [h]
    have hvalid : (c.toNat + 32).isValidChar := Or.inl (by omega)
    rw [Char.ofNat, dif_pos hvalid] at h2
    change c.toNat + 32 = m.toNat at h2
    omega
  · exact h

theorem noMeta_lower_collationC (q : Str) (h : noMeta q) : noMeta (collationC.lower q) := by
  intro c hc
  have hc1 : c ∈ q.map Char.toLower := hc
  simp only [List.mem_map] at hc1
  obtain ⟨d, hd, rfl⟩ := hc1
  have := h d hd
  refine ⟨fun e => this.1 ?_, fun e => this.2.1 ?_, fun e => this.2.2 ?_⟩
  · exact toLower_eq_of_not_letter d '%' (by decide) e
  · exact toLower_eq_of_not_letter d '_' (by decide) e
  · exact toLower_eq_of_not_letter d '\\' (by decide) e

theorem anySuffix_iff (f : Str → Bool) (t : Str) :
    anySuffix f t = true ↔ ∃ u, u <:+ t ∧ f u = true := by
  induction t with
  | nil => simp [anySuffix]
  | cons c t ih =>
    simp only [anySuffix, Bool.or_eq_true, ih]
    constructor
    · rintro (h | ⟨u, hu, hf⟩)
      · exact ⟨c :: t, List.suffix_refl _, h⟩
      · exact ⟨u, List.suffix_cons_iff.mpr (Or.inr hu), hf⟩
    · rintro ⟨u, hu, hf⟩
      rcases List.suffix_cons_iff.mp hu with rfl | hu
      · exact Or.inl hf
      · exact Or.inr ⟨u, hu, hf⟩

theorem likeMatch_literal (p : Str) (hp : noMeta p) (r : Str) :
    ∀ t : Str, likeMatch (p ++ r) t = true ↔ ∃ u, t = p ++ u ∧ likeMatch r u = true := by
  induction p with
  | nil => intro t; simp
  | cons c p ih =>
    intro t
    have hc := hp c (by simp)
    have hp1 : noMeta p := fun d hd => hp d (by simp [hd])
    cases t with
    | nil => simp [likeMatch, hc.1, hc.2.1, hc.2.2]
    | cons x t =>
      simp only [List.cons_append, likeMatch, hc.1, hc.2.1, hc.2.2, if_false,
        Bool.and_eq_true, decide_eq_true_eq, ih hp1 t, List.cons.injEq]
      constructor
      · rintro ⟨rfl, u, rfl, hu⟩
        exact ⟨u, ⟨rfl, rfl⟩, hu⟩
      · rintro ⟨u, ⟨rfl, rfl⟩, hu⟩
        exact ⟨rfl, u, rfl, hu⟩

theorem likeMatch_percent (t : Str) : likeMatch ['%'] t = true := by
  simp only [likeMatch, if_true]
  exact (anySuffix_iff _ t).mpr ⟨[], List.nil_suffix, rfl⟩

theorem likeMatch_contains (q : Str) (hq : noMeta q) (t : Str) :
    likeMatch ('%' :: q ++ ['%']) t = true ↔ q <:+: t := by
  simp only [List.cons_append, likeMatch, if_true]
  rw [anySuffix_iff, List.infix_iff_prefix_suffix]
  constructor
  · rintro ⟨u, hu, hm⟩
    obtain ⟨v, rfl, _⟩ := (likeMatch_literal q hq ['%'] u).mp hm
    exact ⟨q ++ v, List.prefix_append _ _, hu⟩
  · rintro ⟨u, ⟨v, rfl⟩, hu⟩
    exact ⟨q ++ v, hu, (likeMatch_literal q hq ['%'] _).mpr ⟨v, rfl, likeMatch_percent v⟩⟩

theorem ilike_contains (coll : Collation) (q : Str) (hq : noMeta (coll.lower q)) (text : Str) :
    ilike coll text ('%' :: q ++ ['%']) = decide (containsIgnoreCase coll text q) := by
  rw [Bool.eq_iff_iff]
  simp only [ilike, coll.lower_wild, decide_eq_true_eq, containsIgnoreCase]
  exact likeMatch_contains (coll.lower q) hq (coll.lower text)

theorem ilike_empty (coll : Collation) (text : Str) : ilike coll text ['%', '%'] = true := by
  have h := likeMatch_contains [] (by intro c hc; simp at hc) (coll.lower text)
  have hl : coll.lower ['%', '%'] = ['%', '%'] := by
    have := coll.lower_wild []
    rw [coll.lower_nil] at this
    exact this
  simp only [ilike, hl]
  exact h.mpr List.nil_infix

theorem likeWellFormed_snoc (q : Str) : ∀ n, q.length ≤ n → likeWellFormed (q ++ ['%']) = true := by
  intro n
  induction n generalizing q with
  | zero =>
    intro h
    have : q = [] := List.length_eq_zero.mp (by omega)
    subst this
    decide
  | succ n ih =>
    intro h
    cases q with
    | nil => decide
    | cons c q =>
      by_cases hc : c = '\\'
      · cases q with
        | nil => subst hc; decide
        | cons d q =>
          have hq := ih q (by simp at h; omega)
          simpa [likeWellFormed, hc] using hq
      · have hq := ih q (by simp at h; omega)
        rw [List.cons_append]
        unfold likeWellFormed
        rw [if_neg hc]
        exact hq

/-- The pattern that the query route sends never ends in a lone escape character, before
and after lower-casing, so the statement does not fail on the pattern. -/
theorem query_pattern_wellFormed (coll : Collation) (question : Str) :
    likeWellFormed ('%' :: question ++ ['%']) = true ∧
    likeWellFormed (coll.lower ('%' :: question ++ ['%'])) = true := by
  have hp : ¬ ('%' : Char) = '\\' := by decide
  have key : ∀ q : Str, likeWellFormed ('%' :: q ++ ['%']) = true := by
    intro q
    have h := likeWellFormed_snoc q q.length (Nat.le_refl _)
    rw [List.cons_append]
    unfold likeWellFormed
    rw [if_neg hp]
    exact h
  refine ⟨key question, ?_⟩
  rw [coll.lower_wild]
  exact key (coll.lower question)

theorem selectChunks_all (coll : Collation) (s : Store) :
    selectChunks coll ['%', '%'] s = s.chunks.take 5 := by
  unfold selectChunks
  congr 1
  exact List.filter_eq_self.mpr (fun row _ => ilike_empty coll row.chunk_text)

theorem selectChunks_texts (coll : Collation) (Q : Str) (hQ : noMeta (coll.lower Q))
    (s : Store) :
    (selectChunks coll ('%' :: Q ++ ['%']) s).map (fun row => row.chunk_text) =
      ((s.chunks.map (fun row => row.chunk_text)).filter
        (fun c => decide (containsIgnoreCase coll c Q))).take 5 := by
  unfold selectChunks
  rw [List.map_take, List.filter_map]
  congr 2
  apply List.filter_congr
  intro row _
  exact ilike_contains coll Q hQ row.chunk_text

/-- C2 as stated fails: the question `_` returns the chunk alpha, which does not contain
an underscore. -/
theorem C2_wildcard_question_matches :
    postQuery collationC none "_".toList (storeOf ["alpha".toList]) =
      { status := 200, body := .answers ["alpha".toList] } ∧
    ¬ containsIgnoreCase collationC "alpha".toList "_".toList := by
  decide

/-- C2 amended: for every collation of the database, every question whose lower-cased
form contains none of the characters `%`, `_` and backslash, and every store, when the
statement succeeds the route answers 200 with the texts of the first five chunks, in
store order, that contain the question as a literal substring ignoring case (question
and text both lower-cased by the collation); so every answer is a stored chunk text
containing the question ignoring case, and the number of answers is the minimum of 5 and
the number of stored chunks containing it. Under the collation `C` a question without
these three characters has a lower-cased form without them, and the question eta against
the chunks alpha, beta, gamma gives beta alone. -/
theorem C2_query_returns_containing_chunks (coll : Collation) (Q : Str) (s : Store)
    (hQ : noMeta (coll.lower Q)) :
    postQuery coll none Q s =
      { status := 200,
        body := .answers (((s.chunks.map (fun row => row.chunk_text)).filter
          (fun c => decide (containsIgnoreCase coll c Q))).take 5) } ∧
    (∀ a ∈ answersOf (postQuery coll none Q s),
      a ∈ s.chunks.map (fun row => row.chunk_text) ∧ containsIgnoreCase coll a Q) ∧
    (answersOf (postQuery coll none Q s)).length =
      min 5 ((s.chunks.map (fun row => row.chunk_text)).countP
        (fun c => decide (containsIgnoreCase coll c Q))) ∧
    (∀ q : Str, noMeta q → noMeta (collationC.lower q)) ∧
    answersOf (postQuery collationC none "eta".toList
      (storeOf ["alpha".toList, "beta".toList, "gamma".toList])) = ["beta".toList] := by
  have hp : postQuery coll none Q s =
      { status := 200,
        body := .answers (((s.chunks.map (fun row => row.chunk_text)).filter
          (fun c => decide (containsIgnoreCase coll c Q))).take 5) } := by
    simp only [postQuery]
    rw [selectChunks_texts coll Q hQ s]
  refine ⟨hp, ?_, ?_, noMeta_lower_collationC, by decide⟩
  · intro a ha
    rw [hp] at ha
    simp only [answersOf] at ha
    have hm := List.mem_filter.mp (List.mem_of_mem_take ha)
    exact ⟨hm.1, by simpa using hm.2⟩
  · rw [hp]
    simp only [answersOf, List.length_take, List.countP_eq_length_filter]

theorem C2_query_returns_containing_chunks_witness :
    noMeta (collationKelvin.lower "K".toList) ∧
    postQuery collationKelvin none "K".toList
        (storeOf ["kelvin".toList, "Kelvin".toList, Char.ofNat 0x212A :: "elvin".toList,
          "alpha".toList]) =
      { status := 200,
        body := .answers ["kelvin".toList, "Kelvin".toList,
          Char.ofNat 0x212A :: "elvin".toList] } ∧
    noMeta (collationC.lower "ETA".toList) ∧
    postQuery collationC none "ETA".toList
        (storeOf ["alpha".toList, "Beta".toList, "gamma".toList]) =
      { status := 200, body := .answers ["Beta".toList] } :=
  ⟨by decide, by
    have h := (C2_query_returns_containing_chunks collationKelvin "K".toList
      (storeOf ["kelvin".toList, "Kelvin".toList, Char.ofNat 0x212A :: "elvin".toList,
        "alpha".toList]) (by decide)).1
    rw [h]
    decide,
   by decide, by
    have h := (C2_query_returns_containing_chunks collationC "ETA".toList
      (storeOf ["alpha".toList, "Beta".toList, "gamma".toList]) (by decide)).1
    rw [h]
    decide⟩

/-- C7: for every collation of the database and every store with `n` chunk rows, when
the statement succeeds the empty question is answered with the texts of the first five
chunk rows, so with exactly min(5, n) answers, each the text of a stored chunk; and any
question against the empty store is answered with the empty sequence. -/
theorem C7_empty_question_returns_up_to_five (coll : Collation) (s : Store) :
    postQuery coll none [] s =
      { status := 200, body := .answers ((s.chunks.map (fun row => row.chunk_text)).take 5) } ∧
    (answersOf (postQuery coll none [] s)).length = min 5 s.chunks.length ∧
    (∀ a ∈ answersOf (postQuery coll none [] s),
      a ∈ s.chunks.map (fun row => row.chunk_text)) ∧
    (∀ Q : Str, postQuery coll none Q Store.empty = { status := 200, body := .answers [] }) := by
  have hp : postQuery coll none [] s =
      { status := 200, body := .answers ((s.chunks.map (fun row => row.chunk_text)).take 5) } := by
    simp only [postQuery]
    rw [show ('%' :: ([] : Str) ++ ['%']) = ['%', '%'] from rfl, selectChunks_all, List.map_take]
  refine ⟨hp, ?_, ?_, ?_⟩
  · rw [hp]
    simp [answersOf]
  · intro a ha
    rw [hp] at ha
    exact List.mem_of_mem_take ha
  · intro Q
    simp [postQuery, selectChunks, Store.empty]

/-! ## Lemmas on the client -/

theorem networkOrTimeout_fail (code re : Option Str) (msg : Str) :
    networkOrTimeout (.fail code re msg) = retryable code := by
  rw [Bool.eq_iff_iff]
  simp only [networkOrTimeout, retryable, Bool.or_eq_true, decide_eq_true_eq]
  exact Iff.rfl

theorem leadingRetryable_le (o : Nat → Outcome) : ∀ cap a, leadingRetryable o a cap ≤ cap := by
  intro cap
  induction cap with
  | zero => intro a; simp [leadingRetryable]
  | succ cap ih =>
    intro a
    simp only [leadingRetryable]
    split
    · exact Nat.succ_le_succ (ih (a + 1))
    · omega

theorem leadingRetryable_before (o : Nat → Outcome) :
    ∀ cap a j, j < leadingRetryable o a cap → networkOrTimeout (o (a + j)) = true := by
  intro cap
  induction cap with
  | zero => intro a j h; simp [leadingRetryable] at h
  | succ cap ih =>
    intro a j h
    simp only [leadingRetryable] at h
    split at h
    · rename_i hr
      cases j with
      | zero => simpa using hr
      | succ j =>
        have := ih (a + 1) j (by omega)
        rwa [Nat.add_assoc, Nat.add_comm 1 j] at this
    · omega

theorem leadingRetryable_stop (o : Nat → Outcome) :
    ∀ cap a, leadingRetryable o a cap < cap →
      networkOrTimeout (o (a + leadingRetryable o a cap)) = false := by
  intro cap
  induction cap with
  | zero => intro a h; omega
  | succ cap ih =>
    intro a h
    simp only [leadingRetryable] at h ⊢
    split
    · rename_i hr
      rw [if_pos hr] at h
      have := ih (a + 1) (by omega)
      rwa [Nat.add_assoc, Nat.add_comm 1] at this
    · rename_i hr
      simpa using hr

theorem leadingRetryable_zero (o : Nat → Outcome) (a cap : Nat)
    (h : cap = 0 ∨ networkOrTimeout (o a) = false) : leadingRetryable o a cap = 0 := by
  cases cap with
  | zero => rfl
  | succ cap =>
    rcases h with h | h
    · omega
    · simp [leadingRetryable, h]

theorem range_delays (d k : Nat) :
    (List.range (k + 1)).map (fun j => d * 2 ^ j) =
      d :: (List.range k).map (fun j => d * 2 * 2 ^ j) := by
  rw [List.range_succ_eq_map, List.map_cons, List.map_map]
  simp only [pow_zero, Nat.mul_one, List.cons.injEq, true_and]
  apply List.map_congr_left
  intro j _
  simp [Function.comp, pow_succ, Nat.mul_assoc, Nat.mul_comm 2]

theorem handleUpload_ok (f : UploadedFile) (o : Nat → Outcome) (r d a : Nat) (ans : List Str)
    (ho : o a = .ok ans) :
    handleUpload (some f) o r d a =
      [.setIsLoading true, .post "/upload".toList, .alert "File consumed by the beast!".toList,
        .setIsLoading false] := by
  rw [handleUpload]
  simp [ho]

theorem handleUpload_final (f : UploadedFile) (o : Nat → Outcome) (r d a : Nat)
    (code re : Option Str) (msg : Str) (ho : o a = .fail code re msg)
    (h : r = 0 ∨ retryable code = false) :
    handleUpload (some f) o r d a =
      [.setIsLoading true, .post "/upload".toList, .consoleError,
        .alert ("Upload failed: ".toList ++ failureText re msg), .playScream,
        .setIsLoading false] := by
  rw [handleUpload]
  have hn : ¬ (r > 0 ∧ retryable code = true) := by
    rcases h with h | h
    · omega
    · simp [h]
  simp [ho, hn]

theorem handleUpload_retry (f : UploadedFile) (o : Nat → Outcome) (r d a : Nat)
    (code re : Option Str) (msg : Str) (ho : o a = .fail code re msg)
    (h : retryable code = true) :
    handleUpload (some f) o (r + 1) d a =
      [.setIsLoading true, .post "/upload".toList, .consoleError, .consoleLog (r + 1) d,
        .setTimeout d, .setIsLoading false] ++ handleUpload (some f) o r (d * 2) (a + 1) := by
  rw [handleUpload]
  simp [ho, h]

theorem handleUpload_trace (f : UploadedFile) (o : Nat → Outcome) :
    ∀ r d a,
      requests (handleUpload (some f) o r d a) = leadingRetryable o a r + 1 ∧
      delays (handleUpload (some f) o r d a) =
        (List.range (leadingRetryable o a r)).map (fun j => d * 2 ^ j) ∧
      (∀ code re msg, o (a + leadingRetryable o a r) = .fail code re msg →
        ∃ pre, handleUpload (some f) o r d a =
            pre ++ [.alert ("Upload failed: ".toList ++ failureText re msg), .playScream,
              .setIsLoading false] ∧
          requests pre = leadingRetryable o a r + 1) ∧
      (∀ answers, o (a + leadingRetryable o a r) = .ok answers →
        ∃ pre, handleUpload (some f) o r d a =
            pre ++ [.alert "File consumed by the beast!".toList, .setIsLoading false] ∧
          requests pre = leadingRetryable o a r + 1) := by
  have stop : ∀ r d a, (r = 0 ∨ networkOrTimeout (o a) = false) →
      requests (handleUpload (some f) o r d a) = leadingRetryable o a r + 1 ∧
      delays (handleUpload (some f) o r d a) =
        (List.range (leadingRetryable o a r)).map (fun j => d * 2 ^ j) ∧
      (∀ code re msg, o (a + leadingRetryable o a r) = .fail code re msg →
        ∃ pre, handleUpload (some f) o r d a =
            pre ++ [.alert ("Upload failed: ".toList ++ failureText re msg), .playScream,
              .setIsLoading false] ∧
          requests pre = leadingRetryable o a r + 1) ∧
      (∀ answers, o (a + leadingRetryable o a r) = .ok answers →
        ∃ pre, handleUpload (some f) o r d a =
            pre ++ [.alert "File consumed by the beast!".toList, .setIsLoading false] ∧
          requests pre = leadingRetryable o a r + 1) := by
    intro r d a h
    rw [leadingRetryable_zero o a r h]
    simp only [Nat.add_zero, Nat.zero_add]
    cases ho : o a with
    | ok ans =>
      rw [handleUpload_ok f o r d a ans ho]
      refine ⟨by simp [requests], by simp [delays], ?_, ?_⟩
      · intro code re msg h1; cases h1
      · intro answers _
        exact ⟨[.setIsLoading true, .post "/upload".toList], by simp, by simp [requests]⟩
    | fail code re msg =>
      rw [handleUpload_final f o r d a code re msg ho
        (by rcases h with h | h
            · exact Or.inl h
            · right; simpa [ho, networkOrTimeout_fail] using h)]
      refine ⟨by simp [requests], by simp [delays], ?_, ?_⟩
      · intro code1 re1 msg1 h1
        cases h1
        exact ⟨[.setIsLoading true, .post "/upload".toList, .consoleError], by simp,
          by simp [requests]⟩
      · intro answers h1; cases h1
  intro r
  induction r with
  | zero => intro d a; exact stop 0 d a (Or.inl rfl)
  | succ r ih =>
    intro d a
    cases hrf : networkOrTimeout (o a) with
    | false => exact stop (r + 1) d a (Or.inr hrf)
    | true =>
      cases ho : o a with
      | ok ans => simp [ho, networkOrTimeout] at hrf
      | fail code re msg =>
        have hr : retryable code = true := by simpa [ho, networkOrTimeout_fail] using hrf
        have hk : leadingRetryable o a (r + 1) = leadingRetryable o (a + 1) r + 1 := by
          simp [leadingRetryable, hrf]
        obtain ⟨h1, h2, h3, h4⟩ := ih (d * 2) (a + 1)
        have hidx : a + (leadingRetryable o (a + 1) r + 1) =
            a + 1 + leadingRetryable o (a + 1) r := by omega
        rw [hk, hidx, handleUpload_retry f o r d a code re msg ho hr]
        refine ⟨?_, ?_, ?_, ?_⟩
        · simp only [requests] at h1 ⊢
          simp [List.countP_cons, h1]
        · rw [range_delays]
          simp only [delays] at h2 ⊢
          simp [List.filterMap_cons, h2]
        · intro code1 re1 msg1 h
          obtain ⟨pre, hp, hq⟩ := h3 code1 re1 msg1 h
          refine ⟨[.setIsLoading true, .post "/upload".toList, .consoleError,
            .consoleLog (r + 1) d, .setTimeout d, .setIsLoading false] ++ pre, ?_, ?_⟩
          · rw [hp]; simp
          · simp only [requests] at hq ⊢
            simp [List.countP_cons, List.countP_append, hq]
        · intro answers h
          obtain ⟨pre, hp, hq⟩ := h4 answers h
          refine ⟨[.setIsLoading true, .post "/upload".toList, .consoleError,
            .consoleLog (r + 1) d, .setTimeout d, .setIsLoading false] ++ pre, ?_, ?_⟩
          · rw [hp]; simp
          · simp only [requests] at hq ⊢
            simp [List.countP_cons, List.countP_append, hq]

theorem handleQuery_ok (question : Str) (hq : truthy question = true) (o : Nat → Outcome) (r d a : Nat) (ans : List Str)
    (ho : o a = .ok ans) :
    handleQuery question o r d a =
      [.setIsLoading true, .post "/query".toList, .setAnswers ans, .setIsLoading false] := by
  rw [handleQuery]
  simp [ho, hq]

theorem handleQuery_final (question : Str) (hq : truthy question = true) (o : Nat → Outcome) (r d a : Nat)
    (code re : Option Str) (msg : Str) (ho : o a = .fail code re msg)
    (h : r = 0 ∨ retryable code = false) :
    handleQuery question o r d a =
      [.setIsLoading true, .post "/query".toList, .consoleError,
        .alert ("Query failed: ".toList ++ failureText re msg), .playScream,
        .setIsLoading false] := by
  rw [handleQuery]
  have hn : ¬ (r > 0 ∧ retryable code = true) := by
    rcases h with h | h
    · omega
    · simp [h]
  simp [ho, hn, hq]

theorem handleQuery_retry (question : Str) (hq : truthy question = true) (o : Nat → Outcome) (r d a : Nat)
    (code re : Option Str) (msg : Str) (ho : o a = .fail code re msg)
    (h : retryable code = true) :
    handleQuery question o (r + 1) d a =
      [.setIsLoading true, .post "/query".toList, .consoleError, .consoleLog (r + 1) d,
        .setTimeout d, .setIsLoading false] ++ handleQuery question o r (d * 2) (a + 1) := by
  rw [handleQuery]
  simp [ho, h, hq]

theorem handleQuery_trace (question : Str) (hq : truthy question = true) (o : Nat → Outcome) :
    ∀ r d a,
      requests (handleQuery question o r d a) = leadingRetryable o a r + 1 ∧
      delays (handleQuery question o r d a) =
        (List.range (leadingRetryable o a r)).map (fun j => d * 2 ^ j) ∧
      (∀ code re msg, o (a + leadingRetryable o a r) = .fail code re msg →
        ∃ pre, handleQuery question o r d a =
            pre ++ [.alert ("Query failed: ".toList ++ failureText re msg), .playScream,
              .setIsLoading false] ∧
          requests pre = leadingRetryable o a r + 1) ∧
      (∀ answers, o (a + leadingRetryable o a r) = .ok answers →
        ∃ pre, handleQuery question o r d a =
            pre ++ [.setAnswers answers, .setIsLoading false] ∧
          requests pre = leadingRetryable o a r + 1) := by
  have stop : ∀ r d a, (r = 0 ∨ networkOrTimeout (o a) = false) →
      requests (handleQuery question o r d a) = leadingRetryable o a r + 1 ∧
      delays (handleQuery question o r d a) =
        (List.range (leadingRetryable o a r)).map (fun j => d * 2 ^ j) ∧
      (∀ code re msg, o (a + leadingRetryable o a r) = .fail code re msg →
        ∃ pre, handleQuery question o r d a =
            pre ++ [.alert ("Query failed: ".toList ++ failureText re msg), .playScream,
              .setIsLoading false] ∧
          requests pre = leadingRetryable o a r + 1) ∧
      (∀ answers, o (a + leadingRetryable o a r) = .ok answers →
        ∃ pre, handleQuery question o r d a =
            pre ++ [.setAnswers answers, .setIsLoading false] ∧
          requests pre = leadingRetryable o a r + 1) := by
    intro r d a h
    rw [leadingRetryable_zero o a r h]
    simp only [Nat.add_zero, Nat.zero_add]
    cases ho : o a with
    | ok ans =>
      rw [handleQuery_ok question hq o r d a ans ho]
      refine ⟨by simp [requests], by simp [delays], ?_, ?_⟩
      · intro code re msg h1; cases h1
      · intro answers h1
        cases h1
        exact ⟨[.setIsLoading true, .post "/query".toList], by simp, by simp [requests]⟩
    | fail code re msg =>
      rw [handleQuery_final question hq o r d a code re msg ho
        (by rcases h with h | h
            · exact Or.inl h
            · right; simpa [ho, networkOrTimeout_fail] using h)]
      refine ⟨by simp [requests], by simp [delays], ?_, ?_⟩
      · intro code1 re1 msg1 h1
        cases h1
        exact ⟨[.setIsLoading true, .post "/query".toList, .consoleError], by simp,
          by simp [requests]⟩
      · intro answers h1; cases h1
  intro r
  induction r with
  | zero => intro d a; exact stop 0 d a (Or.inl rfl)
  | succ r ih =>
    intro d a
    cases hrf : networkOrTimeout (o a) with
    | false => exact stop (r + 1) d a (Or.inr hrf)
    | true =>
      cases ho : o a with
      | ok ans => simp [ho, networkOrTimeout] at hrf
      | fail code re msg =>
        have hr : retryable code = true := by simpa [ho, networkOrTimeout_fail] using hrf
        have hk : leadingRetryable o a (r + 1) = leadingRetryable o (a + 1) r + 1 := by
          simp [leadingRetryable, hrf]
        obtain ⟨h1, h2, h3, h4⟩ := ih (d * 2) (a + 1)
        have hidx : a + (leadingRetryable o (a + 1) r + 1) =
            a + 1 + leadingRetryable o (a + 1) r := by omega
        rw [hk, hidx, handleQuery_retry question hq o r d a code re msg ho hr]
        refine ⟨?_, ?_, ?_, ?_⟩
        · simp only [requests] at h1 ⊢
          simp [List.countP_cons, h1]
        · rw [range_delays]
          simp only [delays] at h2 ⊢
          simp [List.filterMap_cons, h2]
        · intro code1 re1 msg1 h
          obtain ⟨pre, hp, hq⟩ := h3 code1 re1 msg1 h
          refine ⟨[.setIsLoading true, .post "/query".toList, .consoleError,
            .consoleLog (r + 1) d, .setTimeout d, .setIsLoading false] ++ pre, ?_, ?_⟩
          · rw [hp]; simp
          · simp only [requests] at hq ⊢
            simp [List.countP_cons, List.countP_append, hq]
        · intro answers h
          obtain ⟨pre, hp, hq⟩ := h4 answers h
          refine ⟨[.setIsLoading true, .post "/query".toList, .consoleError,
            .consoleLog (r + 1) d, .setTimeout d, .setIsLoading false] ++ pre, ?_, ?_⟩
          · rw [hp]; simp
          · simp only [requests] at hq ⊢
            simp [List.countP_cons, List.countP_append, hq]

theorem delays_prefix (k : Nat) (hk : k ≤ 3) :
    (List.range k).map (fun j => 1000 * 2 ^ j) <+: [1000, 2000, 4000] := by
  interval_cases k <;> decide

/-- C10: called with `retryCount = 3` and `delay = 1000` on a selected file and a
non-empty question, for every sequence of request outcomes, `handleUpload` and
`handleQuery` make `k + 1` requests, at most 4, and set `k` timers, at most 3, where `k`
is fixed by the outcomes alone: each of the first `k` requests fails with code
ERR_NETWORK or ECONNABORTED, and when `k` is less than 3 the request after them does not
(it succeeds or fails with another code or none). The timers are `1000 * 2 ^ j` for
`j < k`, a prefix of 1000, 2000, 4000. When the last request fails, the trace ends with
the alert of the failure and all `k + 1` requests come before it. A first failure with
any other code is reported at once: one request, no timer. Without a file or with an
empty question no request is made. -/
theorem C10_client_retry_bounded (file : UploadedFile) (question : Str)
    (hq : truthy question = true) (o : Nat → Outcome) :
    leadingRetryable o 0 3 ≤ 3 ∧
    (∀ j, j < leadingRetryable o 0 3 → ∃ code re msg, o j = .fail code re msg ∧
      (code = some "ERR_NETWORK".toList ∨ code = some "ECONNABORTED".toList)) ∧
    (leadingRetryable o 0 3 < 3 → ∀ code re msg, o (leadingRetryable o 0 3) = .fail code re msg →
      code ≠ some "ERR_NETWORK".toList ∧ code ≠ some "ECONNABORTED".toList) ∧
    (requests (handleUpload (some file) o 3 1000 0) = leadingRetryable o 0 3 + 1 ∧
      requests (handleUpload (some file) o 3 1000 0) ≤ 4 ∧
      delays (handleUpload (some file) o 3 1000 0) =
        (List.range (leadingRetryable o 0 3)).map (fun j => 1000 * 2 ^ j) ∧
      delays (handleUpload (some file) o 3 1000 0) <+: [1000, 2000, 4000] ∧
      (∀ code re msg, o (leadingRetryable o 0 3) = .fail code re msg →
        ∃ pre, handleUpload (some file) o 3 1000 0 =
            pre ++ [.alert ("Upload failed: ".toList ++ failureText re msg), .playScream,
              .setIsLoading false] ∧
          requests pre = leadingRetryable o 0 3 + 1) ∧
      (∀ code re msg, o 0 = .fail code re msg → code ≠ some "ERR_NETWORK".toList →
        code ≠ some "ECONNABORTED".toList →
        handleUpload (some file) o 3 1000 0 =
          [.setIsLoading true, .post "/upload".toList, .consoleError,
            .alert ("Upload failed: ".toList ++ failureText re msg), .playScream,
            .setIsLoading false])) ∧
    (requests (handleQuery question o 3 1000 0) = leadingRetryable o 0 3 + 1 ∧
      requests (handleQuery question o 3 1000 0) ≤ 4 ∧
      delays (handleQuery question o 3 1000 0) =
        (List.range (leadingRetryable o 0 3)).map (fun j => 1000 * 2 ^ j) ∧
      delays (handleQuery question o 3 1000 0) <+: [1000, 2000, 4000] ∧
      (∀ code re msg, o (leadingRetryable o 0 3) = .fail code re msg →
        ∃ pre, handleQuery question o 3 1000 0 =
            pre ++ [.alert ("Query failed: ".toList ++ failureText re msg), .playScream,
              .setIsLoading false] ∧
          requests pre = leadingRetryable o 0 3 + 1) ∧
      (∀ code re msg, o 0 = .fail code re msg → code ≠ some "ERR_NETWORK".toList →
        code ≠ some "ECONNABORTED".toList →
        handleQuery question o 3 1000 0 =
          [.setIsLoading true, .post "/query".toList, .consoleError,
            .alert ("Query failed: ".toList ++ failureText re msg), .playScream,
            .setIsLoading false])) ∧
    requests (handleUpload none o 3 1000 0) = 0 ∧
    requests (handleQuery [] o 3 1000 0) = 0 := by
  have hk := leadingRetryable_le o 3 0
  have hb : ∀ j, j < leadingRetryable o 0 3 → ∃ code re msg, o j = .fail code re msg ∧
      (code = some "ERR_NETWORK".toList ∨ code = some "ECONNABORTED".toList) := by
    intro j hj
    have h := leadingRetryable_before o 3 0 j hj
    rw [Nat.zero_add] at h
    cases ho : o j with
    | ok ans => rw [ho] at h; simp [networkOrTimeout] at h
    | fail code re msg =>
      rw [ho] at h
      exact ⟨code, re, msg, rfl, by simpa [networkOrTimeout] using h⟩
  have hs : leadingRetryable o 0 3 < 3 → ∀ code re msg,
      o (leadingRetryable o 0 3) = .fail code re msg →
      code ≠ some "ERR_NETWORK".toList ∧ code ≠ some "ECONNABORTED".toList := by
    intro h code re msg ho
    have h1 := leadingRetryable_stop o 3 0 h
    rw [Nat.zero_add, ho] at h1
    simpa [networkOrTimeout] using h1
  have hother : ∀ code : Option Str, code ≠ some "ERR_NETWORK".toList →
      code ≠ some "ECONNABORTED".toList → retryable code = false := by
    intro code h1 h2
    simp only [retryable, Bool.or_eq_false_iff, decide_eq_false_iff_not]
    exact ⟨h1, h2⟩
  obtain ⟨u1, u2, u3, _⟩ := handleUpload_trace file o 3 1000 0
  obtain ⟨q1, q2, q3, _⟩ := handleQuery_trace question hq o 3 1000 0
  rw [Nat.zero_add] at u3 q3
  refine ⟨hk, hb, hs, ⟨u1, by omega, u2, ?_, u3, ?_⟩, ⟨q1, by omega, q2, ?_, q3, ?_⟩, ?_, ?_⟩
  · rw [u2]; exact delays_prefix _ hk
  · intro code re msg ho h1 h2
    exact handleUpload_final file o 3 1000 0 code re msg ho (Or.inr (hother code h1 h2))
  · rw [q2]; exact delays_prefix _ hk
  · intro code re msg ho h1 h2
    exact handleQuery_final question hq o 3 1000 0 code re msg ho (Or.inr (hother code h1 h2))
  · rw [handleUpload]; simp [requests]
  · rw [handleQuery]; simp [requests, truthy]

theorem C10_client_retry_bounded_witness :
    truthy "void".toList = true ∧
    requests (handleUpload (some samplePdf) sampleOutcomes 3 1000 0) = 4 ∧
    delays (handleQuery "void".toList sampleOutcomes 3 1000 0) = [1000, 2000, 4000] ∧
    requests (handleQuery "void".toList sampleBadResponse 3 1000 0) = 1 ∧
    delays (handleUpload (some samplePdf) sampleBadResponse 3 1000 0) = [] := by
  have h := C10_client_retry_bounded samplePdf "void".toList (by decide) sampleOutcomes
  have g := C10_client_retry_bounded samplePdf "void".toList (by decide) sampleBadResponse
  have hk : leadingRetryable sampleOutcomes 0 3 = 3 := by decide
  have gk : leadingRetryable sampleBadResponse 0 3 = 0 := by decide
  refine ⟨by decide, ?_, ?_, ?_, ?_⟩
  · rw [h.2.2.2.1.1, hk]
  · rw [h.2.2.2.2.1.2.2.1, hk]
    decide
  · rw [g.2.2.2.2.1.1, gk]
  · rw [g.2.2.2.1.2.2.1, gk]
    decide

end KnowledgeScout
